import Mathlib

/-!
Verification of the text layout cache (TextLayoutCache.cpp).

Shallow embedding of the shaping pipeline and the byte-budgeted cache:
machine floats are modelled as exact rationals, fixed-point shaper advances
as integers, buffers written by the external shaper as lists, and the
external bidi resolver and complex shaper as oracle parameters.
-/

/-- Direction request constants kBidi_LTR .. kBidi_Force_RTL from
TextLayout.h, modelled as the six-variant enumeration the spec describes. -/
inductive DirFlags where
  | ltr
  | rtl
  | defaultLTR
  | defaultRTL
  | forceLTR
  | forceRTL
deriving DecidableEq, Repr

/-- ICU sentinel UBIDI_DEFAULT_LTR. -/
def UBIDI_DEFAULT_LTR : Nat := 0xfe

/-- ICU sentinel UBIDI_DEFAULT_RTL. -/
def UBIDI_DEFAULT_RTL : Nat := 0xff

/-- Mask kDirection_Mask used on the resolved paragraph level. -/
def kDirection_Mask : Nat := 0x1

/-- Requested bidi level, from the switch at the top of
computeValuesWithHarfbuzz (lines 396-403); for the force modes bidiReq is
left at its initialisation value 0. -/
def bidiReqOf : DirFlags → Nat
  | .ltr => 0
  | .rtl => 1
  | .defaultLTR => UBIDI_DEFAULT_LTR
  | .defaultRTL => UBIDI_DEFAULT_RTL
  | .forceLTR => 0
  | .forceRTL => 0

/-- Line 458 of the source evaluates
bool isRTL = (bidiReq = 1) || (bidiReq = UBIDI_DEFAULT_RTL);
in C the two operands are assignments, each tested nonzero; the first
assigns 1, which is nonzero, so the expression is unconditionally true. -/
def fallbackIsRTL (_bidiReq : Nat) : Bool :=
  decide ((1 : Nat) ≠ 0) || decide (UBIDI_DEFAULT_RTL ≠ 0)

/-- Modelled from the spec: the fallback direction the spec intends when the
bidi resolver cannot be opened, namely true exactly when the direction mode
requested RTL defaulting (RTL or DefaultRTL). -/
def fallbackIsRTLIntended (d : DirFlags) : Bool :=
  d == .rtl || d == .defaultRTL

/-- Conversion HBFixedToFloat from the 26.6 fixed-point advances the shaper
writes, modelled exactly over the rationals. -/
def hbFixedToFloat (x : Int) : Rat := (x : Rat) / 64

/-- Output of one invocation of the external complex shaper on a run, as
read back from the HB_ShaperItem buffers: whether the advances buffer is
null, the fixed-point advances (indexed by cluster), the log_clusters
buffer, and the glyphs. num_glyphs is the length of the glyph list. Reads
beyond what the shaper wrote are modelled with default 0. -/
structure ShaperResult where
  advancesNull : Bool
  advances : List Int
  logClusters : List Nat
  glyphs : List Nat
deriving DecidableEq, Repr

/-- Condition of the early-return branch at line 502:
shaperItem.advances == NULL or shaperItem.num_glyphs == 0. -/
def runEmpty (res : ShaperResult) : Bool :=
  res.advancesNull || res.glyphs.length == 0

/-- Value HBFixedToFloat(shaperItem.advances[shaperItem.log_clusters[i]])
read at input position i (lines 516 and 525). -/
def advanceAt (res : ShaperResult) (i : Nat) : Rat :=
  hbFixedToFloat (res.advances.getD (res.logClusters.getD i 0) 0)

/-- Advance-projection loop of computeRunValuesWithHarfbuzz
(lines 519-529): for the remaining positions i, i+1, ... it emits 0 when
position i shares its cluster with position i-1 and otherwise emits the
converted advance and adds it to the running total. Called with
rem = count - 1 and i = 1, matching the for loop bounds. -/
def advLoop (res : ShaperResult) : Nat → Nat → Rat → List Rat × Rat
  | 0, _, total => ([], total)
  | rem + 1, i, total =>
    if res.logClusters.getD i 0 = res.logClusters.getD (i - 1) 0 then
      let r := advLoop res rem (i + 1) total
      (0 :: r.1, r.2)
    else
      let r := advLoop res rem (i + 1) (total + advanceAt res i)
      (advanceAt res i :: r.1, r.2)

/-- Shaping artifact accumulated by TextLayoutCacheValue: mAdvances,
mTotalAdvance, mGlyphs, mLogClusters. -/
structure Artifact where
  advances : List Rat
  totalAdvance : Rat
  glyphs : List Nat
  logClusters : List Nat
deriving DecidableEq, Repr

/-- Artifact state after the TextLayoutCacheValue constructor
(mTotalAdvance = 0, all vectors empty). -/
def emptyArtifact : Artifact := ⟨[], 0, [], []⟩

/-- Body of computeRunValuesWithHarfbuzz (lines 481-568), given the shaper
output for the run. Returns the updated accumulators together with the
value the function stores through outTotalAdvance. Empty shaper output
(null advances or zero glyphs) appends count zero advances and reports
total 0. Otherwise position 0 emits the converted advance of its cluster,
the loop handles positions 1..count-1; glyphs are appended reversed when
the run is RTL and truncated to 16 bits by the jchar cast; log clusters
are appended shifted by the current outLogClusters size, truncated to the
unsigned short width. -/
def computeRunValuesWithHarfbuzz (res : ShaperResult) (count : Nat)
    (isRTL : Bool) (a : Artifact) : Artifact × Rat :=
  if runEmpty res then
    ({ a with advances := a.advances ++ List.replicate count 0 }, 0)
  else
    let first := advanceAt res 0
    let p := advLoop res (count - 1) 1 first
    let newGlyphs := (List.range res.glyphs.length).map
      (fun i => (res.glyphs.getD (if isRTL then res.glyphs.length - 1 - i else i) 0) % 65536)
    let shift := a.logClusters.length
    let newLogs := (List.range res.glyphs.length).map
      (fun i => (res.logClusters.getD i 0 + shift) % 65536)
    ({ advances := a.advances ++ first :: p.1,
       totalAdvance := a.totalAdvance,
       glyphs := a.glyphs ++ newGlyphs,
       logClusters := a.logClusters ++ newLogs }, p.2)

/-- Outcome of driving the external bidi resolver for one paragraph:
ubidi_open may fail, ubidi_setPara may fail, ubidi_countRuns may fail
(leaving only the paragraph level usable), or the resolver yields the
paragraph level and the list of visual runs (start, length, isRTL). -/
inductive BidiOutcome where
  | openFailed
  | setParaFailed
  | countRunsFailed (paraLevel : Nat)
  | runsResolved (paraLevel : Nat) (runs : List (Nat × Nat × Bool))
deriving DecidableEq, Repr

/-- Single-run invocation as performed by the one-run paths of
computeValuesWithHarfbuzz: the run covers the whole context and the
returned run total is assigned to the artifact's total advance. The
shaper oracle maps (start, count, isRTL) to its output buffers. -/
def singleRunCompute (shaper : Nat → Nat → Bool → ShaperResult)
    (contextCount : Nat) (isRTL : Bool) : Artifact :=
  let p := computeRunValuesWithHarfbuzz (shaper 0 contextCount isRTL)
    contextCount isRTL emptyArtifact
  { p.1 with totalAdvance := p.2 }

/-- One iteration of the multi-run loop (lines 435-452): shape the visual
run, append its outputs, and add its run total to the artifact total. -/
def multiRunStep (shaper : Nat → Nat → Bool → ShaperResult)
    (a : Artifact) (r : Nat × Nat × Bool) : Artifact :=
  let q := computeRunValuesWithHarfbuzz (shaper r.1 r.2.1 r.2.2) r.2.1 r.2.2 a
  { q.1 with totalAdvance := a.totalAdvance + q.2 }

/-- Body of computeValuesWithHarfbuzz (lines 387-470). Force modes shape a
single run with the forced direction. Otherwise the bidi outcome decides:
open failure falls back to a single run with the (buggy) fallback
direction; setPara failure leaves the artifact untouched; countRuns
failure or a single resolved run shape the whole context with the parity
of the paragraph level; several resolved runs are shaped in visual order,
accumulating per-run totals. -/
def computeValuesWithHarfbuzz (shaper : Nat → Nat → Bool → ShaperResult)
    (contextCount : Nat) (dirFlags : DirFlags) (bidi : BidiOutcome) : Artifact :=
  match dirFlags with
  | .forceLTR => singleRunCompute shaper contextCount false
  | .forceRTL => singleRunCompute shaper contextCount true
  | _ =>
    match bidi with
    | .openFailed =>
        singleRunCompute shaper contextCount (fallbackIsRTL (bidiReqOf dirFlags))
    | .setParaFailed => emptyArtifact
    | .countRunsFailed p =>
        singleRunCompute shaper contextCount (decide (p &&& kDirection_Mask = 1))
    | .runsResolved p runs =>
        if runs.length = 1 then
          singleRunCompute shaper contextCount (decide (p &&& kDirection_Mask = 1))
        else
          runs.foldl (multiRunStep shaper) emptyArtifact

/-- Value emitted at input position i by the advance projection: the
converted cluster advance at position 0, zero at a position sharing its
cluster with its predecessor, the converted cluster advance otherwise. -/
def emittedAt (res : ShaperResult) (i : Nat) : Rat :=
  if i = 0 then advanceAt res 0
  else if res.logClusters.getD i 0 = res.logClusters.getD (i - 1) 0 then 0
  else advanceAt res i

/-- List of advances one run call appends to outAdvances. -/
def emitted (res : ShaperResult) (count : Nat) : List Rat :=
  if runEmpty res then List.replicate count 0
  else (List.range count).map (emittedAt res)

/-- Per-run total advance reported by one run call; by construction it
depends only on the shaper output and the run length. -/
def runTotalOf (res : ShaperResult) (count : Nat) : Rat :=
  (computeRunValuesWithHarfbuzz res count false emptyArtifact).2

/-- Well-formedness of a bidi outcome for a context of contextCount code
units, the contract of the external resolver (spec section 6): setPara
succeeds, and when several visual runs are enumerated they partition the
context, so their lengths sum to contextCount. -/
def BidiWF (contextCount : Nat) : BidiOutcome → Prop
  | .openFailed => True
  | .setParaFailed => False
  | .countRunsFailed _ => True
  | .runsResolved _ runs =>
      runs.length = 1 ∨ (runs.map (fun r => r.2.1)).sum = contextCount

/-- Cache key TextLayoutCacheKey (lines 221-283): the code units (16-bit
values), the typeface pointer (opaque identity), the float geometry
(modelled as exact rationals), the paint flags, the hinting enum and the
direction request. count is the length of text. -/
structure TextLayoutCacheKey where
  text : List Nat
  typeface : Nat
  textSize : Rat
  textSkewX : Rat
  textScaleX : Rat
  flags : Nat
  hinting : Nat
  dirFlags : Nat
deriving DecidableEq, Repr

/-- Little-endian byte image of a sequence of 16-bit code units, the
memory the final memcmp of operator< compares (count * sizeof(UChar)
bytes on a little-endian target). -/
def bytesOfUnits : List Nat → List Nat
  | [] => []
  | u :: us => u % 256 :: u / 256 % 256 :: bytesOfUnits us

/-- Byte-wise memcmp(a, b, n) < 0 over two byte regions of equal length. -/
def memcmpLt : List Nat → List Nat → Bool
  | a :: as, b :: bs =>
    if a < b then true else if a = b then memcmpLt as bs else false
  | _, _ => false

/-- Modelled from the spec: the LTE_INT / LTE_FLOAT macros of
TextLayoutCache.h are not among the sources; per the spec the ordering is
a lexicographic product, so LTE(field) sequencing a body is: less gives
true, equal continues with the body, greater gives false. -/
def ltStep {α : Type} [LinearOrder α] (x y : α) (rest : Bool) : Bool :=
  if x < y then true else if x = y then rest else false

/-- Body of TextLayoutCacheKey::operator< (lines 254-274): compare count,
typeface, textSize, textSkewX, textScaleX, flags, hinting, dirFlags in
that nesting, then memcmp the code-unit bytes. -/
def keyLt (a b : TextLayoutCacheKey) : Bool :=
  ltStep a.text.length b.text.length
    (ltStep a.typeface b.typeface
      (ltStep a.textSize b.textSize
        (ltStep a.textSkewX b.textSkewX
          (ltStep a.textScaleX b.textScaleX
            (ltStep a.flags b.flags
              (ltStep a.hinting b.hinting
                (ltStep a.dirFlags b.dirFlags
                  (memcmpLt (bytesOfUnits a.text) (bytesOfUnits b.text)))))))))

/-- Ordering the claim asserts, following its words: lexicographic product
with code_units first (compared as a byte-wise memcmp of the underlying
16-bit units), then typeface, text size, skew, scale, flags, hinting and
direction mode last. -/
def keyLtClaimOrder (a b : TextLayoutCacheKey) : Bool :=
  if memcmpLt (bytesOfUnits a.text) (bytesOfUnits b.text) then true
  else if bytesOfUnits a.text = bytesOfUnits b.text then
    ltStep a.typeface b.typeface
      (ltStep a.textSize b.textSize
        (ltStep a.textSkewX b.textSkewX
          (ltStep a.textScaleX b.textScaleX
            (ltStep a.flags b.flags
              (ltStep a.hinting b.hinting
                (ltStep a.dirFlags b.dirFlags false))))))
  else false

/-- Lexicographic order of the corrected claim, as a plain proposition:
count first, then typeface, textSize, textSkewX, textScaleX, flags,
hinting, dirFlags, finally the byte-wise memcmp of the code units. -/
def keyLtOrdProp (a b : TextLayoutCacheKey) : Prop :=
  a.text.length < b.text.length ∨ (a.text.length = b.text.length ∧
    (a.typeface < b.typeface ∨ (a.typeface = b.typeface ∧
      (a.textSize < b.textSize ∨ (a.textSize = b.textSize ∧
        (a.textSkewX < b.textSkewX ∨ (a.textSkewX = b.textSkewX ∧
          (a.textScaleX < b.textScaleX ∨ (a.textScaleX = b.textScaleX ∧
            (a.flags < b.flags ∨ (a.flags = b.flags ∧
              (a.hinting < b.hinting ∨ (a.hinting = b.hinting ∧
                (a.dirFlags < b.dirFlags ∨ (a.dirFlags = b.dirFlags ∧
                  memcmpLt (bytesOfUnits a.text) (bytesOfUnits b.text)
                    = true)))))))))))))))

/-- Equality notion of the key, the one induced by its comparison data:
all compared scalar fields equal and the code-unit byte images equal
(memcmp over count * 2 bytes returns zero). -/
def keyEqv (a b : TextLayoutCacheKey) : Prop :=
  a.text.length = b.text.length ∧ a.typeface = b.typeface ∧
    a.textSize = b.textSize ∧ a.textSkewX = b.textSkewX ∧
    a.textScaleX = b.textScaleX ∧ a.flags = b.flags ∧
    a.hinting = b.hinting ∧ a.dirFlags = b.dirFlags ∧
    bytesOfUnits a.text = bytesOfUnits b.text

/-- Loop body of TextLayoutCacheValue::getGlyphsIndexAndCount
(lines 624-633): an index whose log cluster is at most start becomes both
the running start index and the running end index; otherwise an index
whose log cluster is at most start + count becomes the running end
index. -/
def glyphRangeStep (logClusters : List Nat) (start bound : Nat)
    (p : Nat × Nat) (i : Nat) : Nat × Nat :=
  if logClusters.getD i 0 ≤ start then (i, i)
  else if logClusters.getD i 0 ≤ bound then (p.1, i)
  else p

/-- Loop of getGlyphsIndexAndCount over the glyph indices 0..n-1, starting
from the defaults (0, 0). -/
def glyphFold (logClusters : List Nat) (start bound n : Nat) : Nat × Nat :=
  (List.range n).foldl (glyphRangeStep logClusters start bound) (0, 0)

/-- Body of TextLayoutCacheValue::getGlyphsIndexAndCount (lines 616-645):
outStartIndex defaults to 0; a zero count returns (0, 0); otherwise one
pass over the glyph list updates the running indices and the reported
glyph count is endIndex - outStartIndex + 1. -/
def getGlyphsIndexAndCount (glyphs logClusters : List Nat)
    (start count : Nat) : Nat × Nat :=
  if count = 0 then (0, 0)
  else
    let p := glyphFold logClusters start (start + count) glyphs.length
    (p.1, p.2 - p.1 + 1)

/-- Capacity bookkeeping of a HB_ShaperItem: the common capacity of the
glyph-side arrays (glyphs, attributes, advances, offsets), the num_glyphs
field (capacity going into HB_ShapeItem, required or actual count coming
out), and the size of the log_clusters array. -/
structure ShaperItem where
  glyphCap : Nat
  numGlyphs : Nat
  logClusterCap : Nat
deriving DecidableEq, Repr

/-- Buffer setup of setupShaperItem (lines 342-348): glyph-side arrays of
(contextCount + 2) * 2 slots (createGlyphArrays also stores the size in
num_glyphs), a log-cluster array of exactly contextCount slots. -/
def setupShaperItem (contextCount : Nat) : ShaperItem :=
  { glyphCap := (contextCount + 2) * 2
  , numGlyphs := (contextCount + 2) * 2
  , logClusterCap := contextCount }

/-- Retry loop of shapeWithHarfbuzz (lines 377-384) against a shape oracle
mapping the offered capacity (the num_glyphs field) to success and the
resulting num_glyphs value (the required count on failure, the actual
count on success). On failure the glyph-side arrays are deleted and
recreated at num_glyphs << 1 (createGlyphArrays again stores that size in
num_glyphs); the log-cluster array is untouched. The fuel argument counts
remaining attempts; none models an infinite loop. -/
def shapeLoop (shape : Nat → Bool × Nat) : Nat → ShaperItem → Option ShaperItem
  | 0, _ => none
  | fuel + 1, it =>
    if (shape it.numGlyphs).1 then
      some { it with numGlyphs := (shape it.numGlyphs).2 }
    else
      shapeLoop shape fuel
        { it with glyphCap := (shape it.numGlyphs).2 * 2
                , numGlyphs := (shape it.numGlyphs).2 * 2 }

/-- Bounded byte-budgeted cache state of TextLayoutCache: the entries of
the generation cache in insertion order (oldest first), the accounted
byte count mSize and the budget mMaxSize. Modelled from the spec: the
GenerationCache container itself is not among the sources; per spec
section 4.5 it keeps insertion-order recency, removeOldest drops the
least-recent entry and fires the removal callback, and clear releases
every entry. -/
structure Cache (K V : Type) where
  entries : List (K × V)
  mSize : Nat
  mMaxSize : Nat
deriving DecidableEq, Repr

/-- Accounted byte size of an entry, key.getSize() + value->getSize(),
against abstract size functions for the opaque key and artifact. -/
def entryBytes {K V : Type} (keySize : K → Nat) (valSize : V → Nat)
    (e : K × V) : Nat :=
  keySize e.1 + valSize e.2

/-- Eviction loop shared by removeOldests (line 79, need = 0) and the
admission path of getValue (line 143, need = the incoming entry size):
while mSize + need exceeds mMaxSize remove the oldest entry, each removal
firing the callback at lines 87-96 which subtracts that entry's accounted
size from mSize. An exhausted store with the bound still exceeded loops
forever in the source (removeOldest is a no-op there), modelled as none. -/
def evictLoop {K V : Type} (keySize : K → Nat) (valSize : V → Nat)
    (need maxSize : Nat) : List (K × V) → Nat → Option (List (K × V) × Nat)
  | [], size => if size + need ≤ maxSize then some ([], size) else none
  | e :: rest, size =>
    if size + need ≤ maxSize then some (e :: rest, size)
    else evictLoop keySize valSize need maxSize rest
      (size - entryBytes keySize valSize e)

/-- TextLayoutCache::setMaxSize (lines 73-76): store the new budget, then
removeOldests. -/
def setMaxSize {K V : Type} (keySize : K → Nat) (valSize : V → Nat)
    (n : Nat) (c : Cache K V) : Option (Cache K V) :=
  match evictLoop keySize valSize 0 n c.entries c.mSize with
  | none => none
  | some p => some { entries := p.1, mSize := p.2, mMaxSize := n }

/-- TextLayoutCache::clear (lines 101-103). Modelled from the spec: the
GenerationCache clear releases every held entry, firing the removal
callback for each, so mSize is decremented by every accounted size. -/
def clearCache {K V : Type} (keySize : K → Nat) (valSize : V → Nat)
    (c : Cache K V) : Cache K V :=
  { entries := []
  , mSize := c.entries.foldl (fun s e => s - entryBytes keySize valSize e) c.mSize
  , mMaxSize := c.mMaxSize }

/-- TextLayoutCache::getValue (lines 108-200) with the shaping computation
abstracted into compute. On a hit the cached artifact is returned and
nothing changes. On a miss the artifact is computed; if its entry size
fits the budget, oldest entries are evicted until it fits together with
the current size, mSize grows by the entry size and the entry is inserted
as most recent; otherwise the local reference is cleared (value.clear()
at line 175) and the function returns null. -/
def getValue {K V : Type} [DecidableEq K] (keySize : K → Nat)
    (valSize : V → Nat) (compute : K → V) (key : K) (c : Cache K V) :
    Option (Option V × Cache K V) :=
  match c.entries.find? (fun e => e.1 == key) with
  | some e => some (some e.2, c)
  | none =>
    let value := compute key
    let size := keySize key + valSize value
    if size ≤ c.mMaxSize then
      match evictLoop keySize valSize size c.mMaxSize c.entries c.mSize with
      | none => none
      | some p =>
        some (some value,
          { entries := p.1 ++ [(key, value)]
          , mSize := p.2 + size
          , mMaxSize := c.mMaxSize })
    else
      some (none, c)

/-- Size accounting invariant: mSize is the sum of the accounted entry
sizes of the present entries. -/
def CacheWF {K V : Type} (keySize : K → Nat) (valSize : V → Nat)
    (c : Cache K V) : Prop :=
  c.mSize = (c.entries.map (entryBytes keySize valSize)).sum

/-- Concrete shaper output used as a witness input: one glyph, three code
units, positions 0 and 1 sharing cluster 0, position 2 in cluster 1. -/
def resW : ShaperResult := ⟨false, [64, 128], [0, 0, 1], [5]⟩

/-- Concrete shaper output used for the log-cluster counterexample: two
glyphs with clusters 0 and 1. -/
def resC7 : ShaperResult := ⟨false, [64, 64], [0, 1], [10, 11]⟩

/-- Shaper oracle used as a witness input: empty output for length-zero
runs, one glyph in cluster 0 otherwise. -/
def shaperW : Nat → Nat → Bool → ShaperResult :=
  fun _ l _ => if l = 0 then ⟨true, [], [], []⟩ else ⟨false, [64], [0], [9]⟩

/-- Bidi outcome used as a witness input: two visual runs of length one. -/
def bidiW : BidiOutcome := .runsResolved 0 [(0, 1, false), (1, 1, true)]

/-- Concrete key with code units [3] and typeface 2, for the ordering
counterexample. -/
def kA : TextLayoutCacheKey := ⟨[3], 2, 0, 0, 0, 0, 0, 0⟩

/-- Concrete key with code units [5] and typeface 1, for the ordering
counterexample. -/
def kB : TextLayoutCacheKey := ⟨[5], 1, 0, 0, 0, 0, 0, 0⟩

/-- Shape oracle used as a witness input: always succeeds and reports an
actual glyph count of zero. -/
def shapeW : Nat → Bool × Nat := fun _ => (true, 0)

/-- Closed form of the advance-projection loop: starting at position i ≥ 1
it emits the per-position values and adds exactly their sum to the total. -/
lemma advLoop_eq (res : ShaperResult) :
    ∀ rem i total, 1 ≤ i →
      advLoop res rem i total
        = ((List.range' i rem).map (emittedAt res),
            total + ((List.range' i rem).map (emittedAt res)).sum) := by
  intro rem
  induction rem with
  | zero => intro i total hi; simp [advLoop]
  | succ rem ih =>
    intro i total hi
    have hne : i ≠ 0 := Nat.one_le_iff_ne_zero.mp hi
    rw [List.range'_succ]
    by_cases hcl : res.logClusters.getD i 0 = res.logClusters.getD (i - 1) 0
    · simp only [advLoop, if_pos hcl, ih (i + 1) total (by omega), List.map_cons,
        List.sum_cons, emittedAt, if_neg hne, if_pos hcl, Prod.mk.injEq]
      exact ⟨trivial, by ring⟩
    · simp only [advLoop, if_neg hcl, ih (i + 1) (total + advanceAt res i) (by omega),
        List.map_cons, List.sum_cons, emittedAt, if_neg hne, if_neg hcl, Prod.mk.injEq]
      exact ⟨trivial, by ring⟩

/-- Consequences of one run call: it appends exactly the emitted advances,
returns their sum as the run total, and leaves the artifact total advance
field untouched; the emitted list has one entry per code unit of the run
whenever the run is nonempty on the shaper side only if count is at least
one (a length-zero run must come back empty from the shaper). -/
lemma computeRun_spec (res : ShaperResult) (count : Nat) (isRTL : Bool)
    (a : Artifact) (h : runEmpty res = true ∨ 1 ≤ count) :
    (computeRunValuesWithHarfbuzz res count isRTL a).1.advances
        = a.advances ++ emitted res count
  ∧ (computeRunValuesWithHarfbuzz res count isRTL a).2 = (emitted res count).sum
  ∧ (computeRunValuesWithHarfbuzz res count isRTL a).1.totalAdvance = a.totalAdvance
  ∧ (emitted res count).length = count := by
  by_cases hre : runEmpty res = true
  · refine ⟨?_, ?_, ?_, ?_⟩ <;>
      simp [computeRunValuesWithHarfbuzz, emitted, hre, List.sum_replicate]
  · have hre' : runEmpty res = false := by simpa using hre
    have hcount : 1 ≤ count := by
      rcases h with h | h
      · exact absurd h hre
      · exact h
    have hrange : List.range count = 0 :: List.range' 1 (count - 1) := by
      obtain ⟨n, rfl⟩ : ∃ n, count = n + 1 := ⟨count - 1, by omega⟩
      rw [List.range_eq_range', List.range'_succ]
      simp
    have hadv := advLoop_eq res (count - 1) 1 (advanceAt res 0) (le_refl 1)
    have hfirst : emittedAt res 0 = advanceAt res 0 := by simp [emittedAt]
    refine ⟨?_, ?_, ?_, ?_⟩
    · simp [computeRunValuesWithHarfbuzz, hre', emitted, hadv, hrange, hfirst]
    · simp [computeRunValuesWithHarfbuzz, hre', emitted, hadv, hrange, hfirst]
    · simp [computeRunValuesWithHarfbuzz, hre']
    · simp [emitted, hre']

/-- Helper: the advances list produced by a nonempty run call, with the
projection loop in closed form. -/
lemma computeRun_advances_nonempty (res : ShaperResult) (count : Nat)
    (isRTL : Bool) (a : Artifact) (h : runEmpty res = false) :
    (computeRunValuesWithHarfbuzz res count isRTL a).1.advances
        = a.advances ++ advanceAt res 0 ::
            (List.range' 1 (count - 1)).map (emittedAt res)
  ∧ (computeRunValuesWithHarfbuzz res count isRTL a).2
        = advanceAt res 0
            + ((List.range' 1 (count - 1)).map (emittedAt res)).sum := by
  have hadv := advLoop_eq res (count - 1) 1 (advanceAt res 0) (le_refl 1)
  constructor <;> simp [computeRunValuesWithHarfbuzz, h, hadv]

/-- Claim C6: during per-run advance projection, position 0 emits the
converted advance of its cluster; every position i in [1, count) emits 0
exactly when it shares the cluster of position i-1 and the converted
cluster advance otherwise; and the reported run total is the sum of the
emitted advances (each emitted distinct-cluster advance is added to it,
zeros contribute nothing). -/
theorem run_advance_projection (res : ShaperResult) (count : Nat)
    (isRTL : Bool) (a : Artifact) (h : runEmpty res = false) :
    ((computeRunValuesWithHarfbuzz res count isRTL a).1.advances.getD
        a.advances.length 0 = advanceAt res 0)
  ∧ (∀ i, 1 ≤ i → i < count →
      (computeRunValuesWithHarfbuzz res count isRTL a).1.advances.getD
          (a.advances.length + i) 0
        = (if res.logClusters.getD i 0 = res.logClusters.getD (i - 1) 0
            then 0 else advanceAt res i))
  ∧ ((computeRunValuesWithHarfbuzz res count isRTL a).2
      = ((computeRunValuesWithHarfbuzz res count isRTL a).1.advances.drop
          a.advances.length).sum) := by
  obtain ⟨hadv, htot⟩ := computeRun_advances_nonempty res count isRTL a h
  refine ⟨?_, ?_, ?_⟩
  · rw [hadv, List.getD_append_right _ _ _ _ (le_refl _)]
    simp
  · intro i hi1 hic
    rw [hadv, List.getD_append_right _ _ _ _ (by omega)]
    have hidx : a.advances.length + i - a.advances.length = i := by omega
    rw [hidx]
    obtain ⟨j, rfl⟩ : ∃ j, i = j + 1 := ⟨i - 1, by omega⟩
    rw [List.getD_cons_succ]
    have hjlen : j < ((List.range' 1 (count - 1)).map (emittedAt res)).length := by
      simp; omega
    rw [List.getD_eq_getElem _ _ hjlen]
    rw [List.getElem_map, List.getElem_range'_1]
    have : 1 + j = j + 1 := by omega
    rw [this]
    simp [emittedAt]
  · rw [hadv, htot, List.drop_left, List.sum_cons]

/-- Witness for claim C6 at the concrete shaper output resW with three
code units, where positions 0 and 1 share cluster 0. -/
theorem run_advance_projection_witness :
    (runEmpty resW = false)
  ∧ (((computeRunValuesWithHarfbuzz resW 3 false emptyArtifact).1.advances.getD
        emptyArtifact.advances.length 0 = advanceAt resW 0)
    ∧ (∀ i, 1 ≤ i → i < 3 →
        (computeRunValuesWithHarfbuzz resW 3 false emptyArtifact).1.advances.getD
            (emptyArtifact.advances.length + i) 0
          = (if resW.logClusters.getD i 0 = resW.logClusters.getD (i - 1) 0
              then 0 else advanceAt resW i))
    ∧ ((computeRunValuesWithHarfbuzz resW 3 false emptyArtifact).2
        = ((computeRunValuesWithHarfbuzz resW 3 false emptyArtifact).1.advances.drop
            emptyArtifact.advances.length).sum)) :=
  ⟨by decide, run_advance_projection resW 3 false emptyArtifact (by decide)⟩

/-- Claim C7 counterexample: shaping the two-glyph run resC7 (per-run
clusters 0 and 1) into an empty artifact appends log clusters [0, 1]; the
second entry is appended when the artifact already holds one entry, so a
shift by the length at the moment of appending would give
(1 + 1) % 65536 = 2, which is not what the code stores. -/
theorem log_clusters_shift_cex :
    ((computeRunValuesWithHarfbuzz resC7 2 false emptyArtifact).1.logClusters
        = [0, 1])
  ∧ ¬((computeRunValuesWithHarfbuzz resC7 2 false
        emptyArtifact).1.logClusters.getD 1 0
      = (resC7.logClusters.getD 1 0 + 1) % 65536) := by
  constructor
  · decide
  · decide

/-- Claim C7 as amended: every shaped nonempty run appends exactly one
log-cluster entry per output glyph, and entry j equals the shaper's
per-run cluster value plus the artifact's log_clusters length captured
once at the start of the run's append (reduced modulo 2^16, the entry
width). -/
theorem log_clusters_run_shift (res : ShaperResult) (count : Nat)
    (isRTL : Bool) (a : Artifact) (h : runEmpty res = false) :
    ((computeRunValuesWithHarfbuzz res count isRTL a).1.logClusters.length
        = a.logClusters.length + res.glyphs.length)
  ∧ ∀ j, j < res.glyphs.length →
      (computeRunValuesWithHarfbuzz res count isRTL a).1.logClusters.getD
          (a.logClusters.length + j) 0
        = (res.logClusters.getD j 0 + a.logClusters.length) % 65536 := by
  constructor
  · simp [computeRunValuesWithHarfbuzz, h]
  · intro j hj
    simp only [computeRunValuesWithHarfbuzz, h]
    rw [if_neg (by simp)]
    rw [List.getD_append_right _ _ _ _ (by omega)]
    have hidx : a.logClusters.length + j - a.logClusters.length = j := by omega
    rw [hidx]
    have hjlen : j < (((List.range res.glyphs.length)).map
        (fun i => (res.logClusters.getD i 0 + a.logClusters.length) % 65536)).length := by
      simp [hj]
    rw [List.getD_eq_getElem _ _ hjlen]
    simp

/-- Witness for the amended claim C7 at the concrete shaper output resC7
appended into an empty artifact. -/
theorem log_clusters_run_shift_witness :
    (runEmpty resC7 = false)
  ∧ (((computeRunValuesWithHarfbuzz resC7 2 false emptyArtifact).1.logClusters.length
        = emptyArtifact.logClusters.length + resC7.glyphs.length)
    ∧ ∀ j, j < resC7.glyphs.length →
        (computeRunValuesWithHarfbuzz resC7 2 false emptyArtifact).1.logClusters.getD
            (emptyArtifact.logClusters.length + j) 0
          = (resC7.logClusters.getD j 0 + emptyArtifact.logClusters.length) % 65536) :=
  ⟨by decide, log_clusters_run_shift resC7 2 false emptyArtifact (by decide)⟩

/-- Claim C2 (for the code-bug record): when the bidi resolver cannot be
opened, line 458 makes isRTL unconditionally true because the C
expression uses assignments instead of equality comparisons, so for every
direction mode, not just RTL-defaulting ones, the single fallback run is
shaped as RTL; the intended derivation is false for LTR requests. -/
theorem fallback_isRTL_code_bug :
    (∀ d : DirFlags, fallbackIsRTL (bidiReqOf d) = true)
  ∧ (fallbackIsRTLIntended .ltr = false)
  ∧ (∀ shaper contextCount,
      computeValuesWithHarfbuzz shaper contextCount .ltr .openFailed
        = singleRunCompute shaper contextCount true) :=
  ⟨fun _ => rfl, rfl, fun _ _ => rfl⟩

/-- Helper: the emitted advances of one run sum to that run's reported
total whenever the run is shaper-empty or covers at least one code unit. -/
lemma emitted_sum_eq_runTotal (res : ShaperResult) (count : Nat)
    (h : runEmpty res = true ∨ 1 ≤ count) :
    (emitted res count).sum = runTotalOf res count :=
  ((computeRun_spec res count false emptyArtifact h).2.1).symm

/-- Helper: effect of folding the multi-run loop over a list of visual
runs whose length-zero runs come back shaper-empty: the advances grow by
the sum of the run lengths, and both the total-advance field and the sum
of the advances grow by the sum of the per-run totals. -/
lemma foldRuns_spec (shaper : Nat → Nat → Bool → ShaperResult) :
    ∀ (runs : List (Nat × Nat × Bool)) (a : Artifact),
      (∀ r ∈ runs, runEmpty (shaper r.1 r.2.1 r.2.2) = true ∨ 1 ≤ r.2.1) →
      ((runs.foldl (multiRunStep shaper) a).advances.length
          = a.advances.length + (runs.map (fun r => r.2.1)).sum)
    ∧ ((runs.foldl (multiRunStep shaper) a).totalAdvance
          = a.totalAdvance + (runs.map (fun r =>
              runTotalOf (shaper r.1 r.2.1 r.2.2) r.2.1)).sum)
    ∧ ((runs.foldl (multiRunStep shaper) a).advances.sum
          = a.advances.sum + (runs.map (fun r =>
              runTotalOf (shaper r.1 r.2.1 r.2.2) r.2.1)).sum) := by
  intro runs
  induction runs with
  | nil => intro a _; simp
  | cons r rest ih =>
    intro a hg
    have hr := hg r (List.mem_cons_self r rest)
    have hrest : ∀ x ∈ rest, runEmpty (shaper x.1 x.2.1 x.2.2) = true ∨ 1 ≤ x.2.1 :=
      fun x hx => hg x (List.mem_cons_of_mem r hx)
    obtain ⟨hadv, htot, hkeep, hlen⟩ :=
      computeRun_spec (shaper r.1 r.2.1 r.2.2) r.2.1 r.2.2 a hr
    have hsum := emitted_sum_eq_runTotal (shaper r.1 r.2.1 r.2.2) r.2.1 hr
    obtain ⟨ih1, ih2, ih3⟩ := ih (multiRunStep shaper a r) hrest
    have hstepadv : (multiRunStep shaper a r).advances
        = a.advances ++ emitted (shaper r.1 r.2.1 r.2.2) r.2.1 := hadv
    have hsteptot : (multiRunStep shaper a r).totalAdvance
        = a.totalAdvance + runTotalOf (shaper r.1 r.2.1 r.2.2) r.2.1 := by
      simp only [multiRunStep]
      rw [htot, hsum]
    refine ⟨?_, ?_, ?_⟩
    · rw [List.foldl_cons, ih1, hstepadv]
      simp [hlen]
      ring
    · rw [List.foldl_cons, ih2, hsteptot]
      simp
      ring
    · rw [List.foldl_cons, ih3, hstepadv]
      simp [hsum]
      ring

/-- Helper: a single whole-context run produces one advance per code unit
and a total advance equal to the sum of the advances, provided the shaper
returns an empty result on length-zero runs. -/
lemma singleRun_spec (shaper : Nat → Nat → Bool → ShaperResult)
    (contextCount : Nat) (isRTL : Bool)
    (hempty : ∀ s rtl, runEmpty (shaper s 0 rtl) = true) :
    (singleRunCompute shaper contextCount isRTL).advances.length = contextCount
  ∧ (singleRunCompute shaper contextCount isRTL).totalAdvance
      = (singleRunCompute shaper contextCount isRTL).advances.sum
  ∧ (singleRunCompute shaper contextCount isRTL).totalAdvance
      = runTotalOf (shaper 0 contextCount isRTL) contextCount := by
  have hg : runEmpty (shaper 0 contextCount isRTL) = true ∨ 1 ≤ contextCount := by
    rcases Nat.eq_zero_or_pos contextCount with h0 | h1
    · exact Or.inl (h0 ▸ hempty 0 isRTL)
    · exact Or.inr h1
  obtain ⟨hadv, htot, _, hlen⟩ :=
    computeRun_spec (shaper 0 contextCount isRTL) contextCount isRTL emptyArtifact hg
  have hsum := emitted_sum_eq_runTotal (shaper 0 contextCount isRTL) contextCount hg
  have e1 : (singleRunCompute shaper contextCount isRTL).advances
      = emitted (shaper 0 contextCount isRTL) contextCount := by
    simpa [singleRunCompute, emptyArtifact] using hadv
  have e2 : (singleRunCompute shaper contextCount isRTL).totalAdvance
      = (emitted (shaper 0 contextCount isRTL) contextCount).sum := by
    simpa [singleRunCompute, emptyArtifact] using htot
  refine ⟨?_, ?_, ?_⟩
  · rw [e1, hlen]
  · rw [e1, e2]
  · rw [e2, hsum]

/-- Claim C3: for every artifact the pipeline produces under the external
contracts (the resolver opens or fails as modelled, setPara succeeds, the
enumerated visual runs partition the context, and the shaper returns an
empty result on a length-zero run), the advances list has exactly one
entry per input code unit and the total advance equals the sum of the
advances exactly (the float rounding of the source is exact over the
rationals); in the multi-run case the total advance is the sum of the
per-run totals. -/
theorem compute_advances_length_sum (shaper : Nat → Nat → Bool → ShaperResult)
    (contextCount : Nat) (dirFlags : DirFlags) (bidi : BidiOutcome)
    (hempty : ∀ s rtl, runEmpty (shaper s 0 rtl) = true)
    (hwf : BidiWF contextCount bidi) :
    ((computeValuesWithHarfbuzz shaper contextCount dirFlags bidi).advances.length
        = contextCount)
  ∧ ((computeValuesWithHarfbuzz shaper contextCount dirFlags bidi).totalAdvance
      = (computeValuesWithHarfbuzz shaper contextCount dirFlags bidi).advances.sum)
  ∧ (∀ p runs, dirFlags ≠ .forceLTR → dirFlags ≠ .forceRTL →
      bidi = .runsResolved p runs → runs.length ≠ 1 →
      (computeValuesWithHarfbuzz shaper contextCount dirFlags bidi).totalAdvance
        = (runs.map (fun r => runTotalOf (shaper r.1 r.2.1 r.2.2) r.2.1)).sum) := by
  have hsingle := fun isRTL => singleRun_spec shaper contextCount isRTL hempty
  have hmulti : ∀ p runs, bidi = .runsResolved p runs → runs.length ≠ 1 →
      BidiWF contextCount bidi →
      ((runs.foldl (multiRunStep shaper) emptyArtifact).advances.length = contextCount)
    ∧ ((runs.foldl (multiRunStep shaper) emptyArtifact).totalAdvance
        = (runs.map (fun r => runTotalOf (shaper r.1 r.2.1 r.2.2) r.2.1)).sum)
    ∧ ((runs.foldl (multiRunStep shaper) emptyArtifact).advances.sum
        = (runs.map (fun r => runTotalOf (shaper r.1 r.2.1 r.2.2) r.2.1)).sum) := by
    intro p runs hb hne hwf2
    have hguard : ∀ r ∈ runs, runEmpty (shaper r.1 r.2.1 r.2.2) = true ∨ 1 ≤ r.2.1 := by
      intro r _
      rcases Nat.eq_zero_or_pos r.2.1 with h0 | h1
      · exact Or.inl (h0 ▸ hempty r.1 r.2.2)
      · exact Or.inr h1
    obtain ⟨f1, f2, f3⟩ := foldRuns_spec shaper runs emptyArtifact hguard
    have hpart : (runs.map (fun r => r.2.1)).sum = contextCount := by
      rw [hb] at hwf2
      rcases hwf2 with h | h
      · exact absurd h hne
      · exact h
    refine ⟨?_, ?_, ?_⟩
    · rw [f1, hpart]; simp [emptyArtifact]
    · rw [f2]; simp [emptyArtifact]
    · rw [f3]; simp [emptyArtifact]
  cases dirFlags with
  | forceLTR =>
    exact ⟨(hsingle false).1, (hsingle false).2.1, by intro _ _ h; exact absurd rfl h⟩
  | forceRTL =>
    exact ⟨(hsingle true).1, (hsingle true).2.1,
      by intro _ _ _ h; exact absurd rfl h⟩
  | ltr =>
    cases bidi with
    | openFailed =>
      exact ⟨(hsingle _).1, (hsingle _).2.1, by intro _ _ _ _ h; cases h⟩
    | setParaFailed => cases hwf
    | countRunsFailed p =>
      exact ⟨(hsingle _).1, (hsingle _).2.1, by intro _ _ _ _ h; cases h⟩
    | runsResolved p runs =>
      by_cases h1 : runs.length = 1
      · refine ⟨?_, ?_, ?_⟩
        · simp only [computeValuesWithHarfbuzz, if_pos h1]
          exact (hsingle _).1
        · simp only [computeValuesWithHarfbuzz, if_pos h1]
          exact (hsingle _).2.1
        · intro p2 runs2 _ _ hb hne
          cases hb
          exact absurd h1 hne
      · obtain ⟨m1, m2, m3⟩ := hmulti p runs rfl h1 hwf
        refine ⟨?_, ?_, ?_⟩
        · simpa only [computeValuesWithHarfbuzz, if_neg h1] using m1
        · rw [show (computeValuesWithHarfbuzz shaper contextCount .ltr
            (.runsResolved p runs)) = runs.foldl (multiRunStep shaper) emptyArtifact
            from by simp only [computeValuesWithHarfbuzz, if_neg h1]]
          rw [m2, m3]
        · intro p2 runs2 _ _ hb hne
          cases hb
          simpa only [computeValuesWithHarfbuzz, if_neg h1] using m2
  | rtl =>
    cases bidi with
    | openFailed =>
      exact ⟨(hsingle _).1, (hsingle _).2.1, by intro _ _ _ _ h; cases h⟩
    | setParaFailed => cases hwf
    | countRunsFailed p =>
      exact ⟨(hsingle _).1, (hsingle _).2.1, by intro _ _ _ _ h; cases h⟩
    | runsResolved p runs =>
      by_cases h1 : runs.length = 1
      · refine ⟨?_, ?_, ?_⟩
        · simp only [computeValuesWithHarfbuzz, if_pos h1]
          exact (hsingle _).1
        · simp only [computeValuesWithHarfbuzz, if_pos h1]
          exact (hsingle _).2.1
        · intro p2 runs2 _ _ hb hne
          cases hb
          exact absurd h1 hne
      · obtain ⟨m1, m2, m3⟩ := hmulti p runs rfl h1 hwf
        refine ⟨?_, ?_, ?_⟩
        · simpa only [computeValuesWithHarfbuzz, if_neg h1] using m1
        · rw [show (computeValuesWithHarfbuzz shaper contextCount .rtl
            (.runsResolved p runs)) = runs.foldl (multiRunStep shaper) emptyArtifact
            from by simp only [computeValuesWithHarfbuzz, if_neg h1]]
          rw [m2, m3]
        · intro p2 runs2 _ _ hb hne
          cases hb
          simpa only [computeValuesWithHarfbuzz, if_neg h1] using m2
  | defaultLTR =>
    cases bidi with
    | openFailed =>
      exact ⟨(hsingle _).1, (hsingle _).2.1, by intro _ _ _ _ h; cases h⟩
    | setParaFailed => cases hwf
    | countRunsFailed p =>
      exact ⟨(hsingle _).1, (hsingle _).2.1, by intro _ _ _ _ h; cases h⟩
    | runsResolved p runs =>
      by_cases h1 : runs.length = 1
      · refine ⟨?_, ?_, ?_⟩
        · simp only [computeValuesWithHarfbuzz, if_pos h1]
          exact (hsingle _).1
        · simp only [computeValuesWithHarfbuzz, if_pos h1]
          exact (hsingle _).2.1
        · intro p2 runs2 _ _ hb hne
          cases hb
          exact absurd h1 hne
      · obtain ⟨m1, m2, m3⟩ := hmulti p runs rfl h1 hwf
        refine ⟨?_, ?_, ?_⟩
        · simpa only [computeValuesWithHarfbuzz, if_neg h1] using m1
        · rw [show (computeValuesWithHarfbuzz shaper contextCount .defaultLTR
            (.runsResolved p runs)) = runs.foldl (multiRunStep shaper) emptyArtifact
            from by simp only [computeValuesWithHarfbuzz, if_neg h1]]
          rw [m2, m3]
        · intro p2 runs2 _ _ hb hne
          cases hb
          simpa only [computeValuesWithHarfbuzz, if_neg h1] using m2
  | defaultRTL =>
    cases bidi with
    | openFailed =>
      exact ⟨(hsingle _).1, (hsingle _).2.1, by intro _ _ _ _ h; cases h⟩
    | setParaFailed => cases hwf
    | countRunsFailed p =>
      exact ⟨(hsingle _).1, (hsingle _).2.1, by intro _ _ _ _ h; cases h⟩
    | runsResolved p runs =>
      by_cases h1 : runs.length = 1
      · refine ⟨?_, ?_, ?_⟩
        · simp only [computeValuesWithHarfbuzz, if_pos h1]
          exact (hsingle _).1
        · simp only [computeValuesWithHarfbuzz, if_pos h1]
          exact (hsingle _).2.1
        · intro p2 runs2 _ _ hb hne
          cases hb
          exact absurd h1 hne
      · obtain ⟨m1, m2, m3⟩ := hmulti p runs rfl h1 hwf
        refine ⟨?_, ?_, ?_⟩
        · simpa only [computeValuesWithHarfbuzz, if_neg h1] using m1
        · rw [show (computeValuesWithHarfbuzz shaper contextCount .defaultRTL
            (.runsResolved p runs)) = runs.foldl (multiRunStep shaper) emptyArtifact
            from by simp only [computeValuesWithHarfbuzz, if_neg h1]]
          rw [m2, m3]
        · intro p2 runs2 _ _ hb hne
          cases hb
          simpa only [computeValuesWithHarfbuzz, if_neg h1] using m2

/-- Witness for claim C3: the two-run bidi outcome bidiW over a context of
two code units, shaped by shaperW. -/
theorem compute_advances_length_sum_witness :
    ((∀ s rtl, runEmpty (shaperW s 0 rtl) = true) ∧ BidiWF 2 bidiW)
  ∧ (((computeValuesWithHarfbuzz shaperW 2 .ltr bidiW).advances.length = 2)
    ∧ ((computeValuesWithHarfbuzz shaperW 2 .ltr bidiW).totalAdvance
        = (computeValuesWithHarfbuzz shaperW 2 .ltr bidiW).advances.sum)
    ∧ (∀ p runs, DirFlags.ltr ≠ .forceLTR → DirFlags.ltr ≠ .forceRTL →
        bidiW = .runsResolved p runs → runs.length ≠ 1 →
        (computeValuesWithHarfbuzz shaperW 2 .ltr bidiW).totalAdvance
          = (runs.map (fun r => runTotalOf (shaperW r.1 r.2.1 r.2.2) r.2.1)).sum)) :=
  ⟨⟨fun _ _ => rfl, Or.inr (by decide)⟩,
    compute_advances_length_sum shaperW 2 .ltr bidiW (fun _ _ => rfl)
      (Or.inr (by decide))⟩

/-- Helper: truth of one lexicographic comparison step. -/
lemma ltStep_eq_true {α : Type} [LinearOrder α] (x y : α) (r : Bool) :
    ltStep x y r = true ↔ x < y ∨ (x = y ∧ r = true) := by
  unfold ltStep
  rcases lt_trichotomy x y with h | h | h
  · simp [h]
  · simp [h]
  · simp [not_lt_of_gt h, ne_of_gt h]

/-- Helper: two opposite comparison steps are both false exactly when the
compared values are equal and both continuations are false. -/
lemma ltStep_false_false {α : Type} [LinearOrder α] (x y : α) (r s : Bool) :
    (ltStep x y r = false ∧ ltStep y x s = false) ↔ (x = y ∧ r = false ∧ s = false) := by
  unfold ltStep
  rcases lt_trichotomy x y with h | h | h
  · simp [h, ne_of_lt h]
  · simp [h, lt_irrefl]
  · simp [h, not_lt_of_gt h, ne_of_gt h, ne_of_lt h]

/-- Helper: byte image length of a code-unit sequence. -/
lemma bytesOfUnits_length : ∀ us : List Nat, (bytesOfUnits us).length = 2 * us.length := by
  intro us
  induction us with
  | nil => simp [bytesOfUnits]
  | cons u us ih => simp [bytesOfUnits, ih]; ring

/-- Helper: memcmp over equal-length regions reports neither side smaller
exactly when the regions are equal. -/
lemma memcmpLt_false_false : ∀ u v : List Nat, u.length = v.length →
    ((memcmpLt u v = false ∧ memcmpLt v u = false) ↔ u = v) := by
  intro u
  induction u with
  | nil =>
    intro v hlen
    cases v with
    | nil => simp [memcmpLt]
    | cons b bs => simp at hlen
  | cons a as ih =>
    intro v hlen
    cases v with
    | nil => simp at hlen
    | cons b bs =>
      have hlen2 : as.length = bs.length := by simpa using hlen
      unfold memcmpLt
      rcases lt_trichotomy a b with h | h | h
      · simp [h, ne_of_lt h, ne_of_gt h]
      · subst h
        simp [lt_irrefl, ih bs hlen2]
      · simp [h, ne_of_lt h, ne_of_gt h, not_lt_of_gt h]

/-- Claim C5 counterexample: keys kA and kB agree on every field except
the code units ([3] versus [5]) and the typeface (2 versus 1). Under the
claimed ordering (code units compared first) kA precedes kB, but
operator< compares the code-unit bytes last, after the typeface, so the
code reports kA not less than kB. -/
theorem key_order_cex :
    keyLt kA kB = false ∧ keyLtClaimOrder kA kB = true := by
  constructor
  · decide
  · decide

/-- Claim C5 as amended: operator< is the lexicographic product over
count, typeface, textSize, textSkewX, textScaleX, flags, hinting,
dirFlags in that order, with the byte-wise memcmp of the code units last;
and key equality (all compared fields equal with equal code-unit bytes)
is exactly mutual non-precedence, so it is consistent with the ordering. -/
theorem keyLt_lexicographic (a b : TextLayoutCacheKey) :
    (keyLt a b = true ↔ keyLtOrdProp a b)
  ∧ ((keyLt a b = false ∧ keyLt b a = false) ↔ keyEqv a b) := by
  constructor
  · simp only [keyLt, keyLtOrdProp, ltStep_eq_true]
  · simp only [keyLt, ltStep_false_false, keyEqv]
    constructor
    · rintro ⟨h1, h2, h3, h4, h5, h6, h7, h8, hmlt, hmgt⟩
      have hbl : (bytesOfUnits a.text).length = (bytesOfUnits b.text).length := by
        rw [bytesOfUnits_length, bytesOfUnits_length, h1]
      exact ⟨h1, h2, h3, h4, h5, h6, h7, h8,
        (memcmpLt_false_false _ _ hbl).mp ⟨hmlt, hmgt⟩⟩
    · rintro ⟨h1, h2, h3, h4, h5, h6, h7, h8, hb⟩
      have hbl : (bytesOfUnits a.text).length = (bytesOfUnits b.text).length := by
        rw [bytesOfUnits_length, bytesOfUnits_length, h1]
      obtain ⟨hmlt, hmgt⟩ := (memcmpLt_false_false _ _ hbl).mpr hb
      exact ⟨h1, h2, h3, h4, h5, h6, h7, h8, hmlt, hmgt⟩

/-- Helper: invariant of the getGlyphsIndexAndCount loop after scanning
glyph indices 0..n-1: the running start index never exceeds the running
end index, and each running index is 0 when no scanned index qualifies
and otherwise the largest qualifying scanned index (log cluster at most
start, respectively at most bound). -/
lemma glyphFold_spec (logClusters : List Nat) (start bound : Nat)
    (hsb : start ≤ bound) :
    ∀ n : Nat,
      ((glyphFold logClusters start bound n).1
        ≤ (glyphFold logClusters start bound n).2)
    ∧ (((∀ j, j < n → ¬(logClusters.getD j 0 ≤ start))
          ∧ (glyphFold logClusters start bound n).1 = 0)
      ∨ ((glyphFold logClusters start bound n).1 < n
          ∧ logClusters.getD (glyphFold logClusters start bound n).1 0 ≤ start
          ∧ ∀ j, j < n → logClusters.getD j 0 ≤ start
              → j ≤ (glyphFold logClusters start bound n).1))
    ∧ (((∀ j, j < n → ¬(logClusters.getD j 0 ≤ bound))
          ∧ (glyphFold logClusters start bound n).2 = 0)
      ∨ ((glyphFold logClusters start bound n).2 < n
          ∧ logClusters.getD (glyphFold logClusters start bound n).2 0 ≤ bound
          ∧ ∀ j, j < n → logClusters.getD j 0 ≤ bound
              → j ≤ (glyphFold logClusters start bound n).2)) := by
  intro n
  induction n with
  | zero =>
    refine ⟨le_refl _, Or.inl ⟨?_, rfl⟩, Or.inl ⟨?_, rfl⟩⟩ <;>
      intro j hj <;> omega
  | succ n ih =>
    obtain ⟨ihle, ih1, ih2⟩ := ih
    have hstep : glyphFold logClusters start bound (n + 1)
        = glyphRangeStep logClusters start bound
            (glyphFold logClusters start bound n) n := by
      simp [glyphFold, List.range_succ]
    rw [hstep]
    unfold glyphRangeStep
    by_cases hA : logClusters.getD n 0 ≤ start
    · rw [if_pos hA]
      refine ⟨le_refl _, Or.inr ⟨by omega, hA, fun j hj _ => by omega⟩,
        Or.inr ⟨by omega, le_trans hA hsb, fun j hj _ => by omega⟩⟩
    · rw [if_neg hA]
      by_cases hB : logClusters.getD n 0 ≤ bound
      · rw [if_pos hB]
        have hle1 : (glyphFold logClusters start bound n).1 ≤ n := by
          rcases ih1 with ⟨_, h0⟩ | ⟨hlt, _, _⟩
          · omega
          · omega
        refine ⟨hle1, ?_, Or.inr ⟨by omega, hB, fun j hj _ => by omega⟩⟩
        rcases ih1 with ⟨hall, h0⟩ | ⟨hlt, hq, hmax⟩
        · exact Or.inl ⟨fun j hj hjs => by
            rcases Nat.lt_succ_iff_lt_or_eq.mp hj with h | h
            · exact hall j h hjs
            · subst h; exact hA hjs, h0⟩
        · exact Or.inr ⟨by omega, hq, fun j hj hjs => by
            rcases Nat.lt_succ_iff_lt_or_eq.mp hj with h | h
            · exact hmax j h hjs
            · subst h; exact absurd hjs hA⟩
      · rw [if_neg hB]
        refine ⟨ihle, ?_, ?_⟩
        · rcases ih1 with ⟨hall, h0⟩ | ⟨hlt, hq, hmax⟩
          · exact Or.inl ⟨fun j hj hjs => by
              rcases Nat.lt_succ_iff_lt_or_eq.mp hj with h | h
              · exact hall j h hjs
              · subst h; exact hA hjs, h0⟩
          · exact Or.inr ⟨by omega, hq, fun j hj hjs => by
              rcases Nat.lt_succ_iff_lt_or_eq.mp hj with h | h
              · exact hmax j h hjs
              · subst h; exact absurd hjs hA⟩
        · rcases ih2 with ⟨hall, h0⟩ | ⟨hlt, hq, hmax⟩
          · exact Or.inl ⟨fun j hj hjb => by
              rcases Nat.lt_succ_iff_lt_or_eq.mp hj with h | h
              · exact hall j h hjb
              · subst h; exact hB hjb, h0⟩
          · exact Or.inr ⟨by omega, hq, fun j hj hjb => by
              rcases Nat.lt_succ_iff_lt_or_eq.mp hj with h | h
              · exact hmax j h hjb
              · subst h; exact absurd hjb hB⟩

/-- Claim C8: a zero count resolves to (0, 0); for a nonzero count, when a
largest glyph index with log cluster at most start exists and a largest
glyph index with log cluster at most start + count exists, the function
returns exactly that start index and end - start + 1 glyphs. -/
theorem glyph_range_spec (glyphs logClusters : List Nat) (start count : Nat) :
    (getGlyphsIndexAndCount glyphs logClusters start 0 = (0, 0))
  ∧ (∀ s e, count ≠ 0 →
      (s < glyphs.length ∧ logClusters.getD s 0 ≤ start ∧
        ∀ j, j < glyphs.length → logClusters.getD j 0 ≤ start → j ≤ s) →
      (e < glyphs.length ∧ logClusters.getD e 0 ≤ start + count ∧
        ∀ j, j < glyphs.length → logClusters.getD j 0 ≤ start + count → j ≤ e) →
      getGlyphsIndexAndCount glyphs logClusters start count = (s, e - s + 1)) := by
  constructor
  · simp [getGlyphsIndexAndCount]
  · intro s e hne ⟨hs1, hs2, hs3⟩ ⟨he1, he2, he3⟩
    obtain ⟨hle, h1, h2⟩ := glyphFold_spec logClusters start (start + count)
      (Nat.le_add_right start count) glyphs.length
    have hp1 : (glyphFold logClusters start (start + count) glyphs.length).1 = s := by
      rcases h1 with ⟨hall, _⟩ | ⟨hlt, hq, hmax⟩
      · exact absurd hs2 (hall s hs1)
      · exact le_antisymm (hs3 _ hlt hq) (hmax s hs1 hs2)
    have hp2 : (glyphFold logClusters start (start + count) glyphs.length).2 = e := by
      rcases h2 with ⟨hall, _⟩ | ⟨hlt, hq, hmax⟩
      · exact absurd he2 (hall e he1)
      · exact le_antisymm (he3 _ hlt hq) (hmax e he1 he2)
    simp only [getGlyphsIndexAndCount, if_neg hne]
    rw [hp1, hp2]

/-- Witness for claim C8: three glyphs with log clusters [0, 1, 2] and the
code-unit range (1, 1); the largest index with cluster at most 1 is 1,
the largest with cluster at most 2 is 2, so the result is (1, 2). -/
theorem glyph_range_spec_witness :
    ((1 : Nat) ≠ 0)
  ∧ ((1 < [10, 11, 12].length ∧ [0, 1, 2].getD 1 0 ≤ 1 ∧
        ∀ j, j < [10, 11, 12].length → [0, 1, 2].getD j 0 ≤ 1 → j ≤ 1))
  ∧ ((2 < [10, 11, 12].length ∧ [0, 1, 2].getD 2 0 ≤ 1 + 1 ∧
        ∀ j, j < [10, 11, 12].length → [0, 1, 2].getD j 0 ≤ 1 + 1 → j ≤ 2))
  ∧ getGlyphsIndexAndCount [10, 11, 12] [0, 1, 2] 1 1 = (1, 2 - 1 + 1) :=
  ⟨by decide, by decide, by decide,
    (glyph_range_spec [10, 11, 12] [0, 1, 2] 1 1).2 1 2 (by decide)
      (by decide) (by decide)⟩

/-- Claim C10: for every nonzero count the reported glyph count is at
least one, because it is computed as endIndex - startIndex + 1 with both
indices defaulting to 0; in particular an artifact with no glyphs reports
the range (0, 1). -/
theorem glyph_range_count_pos (glyphs logClusters : List Nat)
    (start count : Nat) (h : 0 < count) :
    (1 ≤ (getGlyphsIndexAndCount glyphs logClusters start count).2)
  ∧ (glyphs = [] → getGlyphsIndexAndCount glyphs logClusters start count = (0, 1)) := by
  have hne : count ≠ 0 := by omega
  constructor
  · simp only [getGlyphsIndexAndCount, if_neg hne]
    omega
  · intro hg
    subst hg
    simp [getGlyphsIndexAndCount, hne, glyphFold]

/-- Witness for claim C10 at an artifact with no glyphs and the code-unit
range (0, 1). -/
theorem glyph_range_count_pos_witness :
    ((0 : Nat) < 1)
  ∧ ((1 ≤ (getGlyphsIndexAndCount [] [] 0 1).2)
    ∧ (([] : List Nat) = [] → getGlyphsIndexAndCount [] [] 0 1 = (0, 1))) :=
  ⟨by decide, glyph_range_count_pos [] [] 0 1 (by decide)⟩

/-- Claim C9: setupShaperItem allocates glyph-side buffers of
2 * (contextCount + 2) slots and a log-cluster buffer of exactly
contextCount slots; under the precondition that the shaper succeeds
whenever the offered capacity is at least its reported requirement (and
reports an actual count within the offered capacity on success), the
retry loop of shapeWithHarfbuzz finishes within two attempts, with final
glyph-side capacity at least the resulting glyph count and the
log-cluster buffer never resized. -/
theorem shaper_retry_spec (shape : Nat → Bool × Nat) (contextCount : Nat)
    (hsucc : ∀ cap, (shape cap).1 = false →
      ∀ cap2, (shape cap).2 ≤ cap2 → (shape cap2).1 = true)
    (hact : ∀ cap, (shape cap).1 = true → (shape cap).2 ≤ cap) :
    ((setupShaperItem contextCount).glyphCap = 2 * (contextCount + 2))
  ∧ ((setupShaperItem contextCount).logClusterCap = contextCount)
  ∧ (∃ it2, shapeLoop shape 2 (setupShaperItem contextCount) = some it2
      ∧ it2.numGlyphs ≤ it2.glyphCap
      ∧ it2.logClusterCap = contextCount) := by
  refine ⟨by simp [setupShaperItem]; ring, rfl, ?_⟩
  by_cases h0 : (shape ((contextCount + 2) * 2)).1 = true
  · refine ⟨{ glyphCap := (contextCount + 2) * 2
            , numGlyphs := (shape ((contextCount + 2) * 2)).2
            , logClusterCap := contextCount }, ?_, ?_, rfl⟩
    · simp [shapeLoop, setupShaperItem, h0]
    · exact hact _ h0
  · have h0f : (shape ((contextCount + 2) * 2)).1 = false := by
      simpa using h0
    have h1 : (shape ((shape ((contextCount + 2) * 2)).2 * 2)).1 = true :=
      hsucc _ h0f _ (by omega)
    refine ⟨{ glyphCap := (shape ((contextCount + 2) * 2)).2 * 2
            , numGlyphs := (shape ((shape ((contextCount + 2) * 2)).2 * 2)).2
            , logClusterCap := contextCount }, ?_, ?_, rfl⟩
    · simp [shapeLoop, setupShaperItem, h0f, h1]
    · exact hact _ h1

/-- Witness for claim C9 at the always-succeeding shape oracle shapeW and
a context of three code units. -/
theorem shaper_retry_spec_witness :
    ((∀ cap, (shapeW cap).1 = false →
        ∀ cap2, (shapeW cap).2 ≤ cap2 → (shapeW cap2).1 = true)
      ∧ (∀ cap, (shapeW cap).1 = true → (shapeW cap).2 ≤ cap))
  ∧ (((setupShaperItem 3).glyphCap = 2 * (3 + 2))
    ∧ ((setupShaperItem 3).logClusterCap = 3)
    ∧ (∃ it2, shapeLoop shapeW 2 (setupShaperItem 3) = some it2
        ∧ it2.numGlyphs ≤ it2.glyphCap
        ∧ it2.logClusterCap = 3)) :=
  ⟨⟨fun _ hf => Bool.noConfusion hf, fun cap _ => Nat.zero_le cap⟩,
    shaper_retry_spec shapeW 3 (fun _ hf => Bool.noConfusion hf)
      (fun cap _ => Nat.zero_le cap)⟩

/-- Helper: when the incoming requirement fits the budget and the size
counter equals the sum of the accounted entry sizes, the eviction loop
terminates, keeps the counter equal to the sum over the surviving
entries, and stops with the requirement satisfied. -/
lemma evictLoop_spec {K V : Type} (keySize : K → Nat) (valSize : V → Nat)
    (need maxSize : Nat) (hneed : need ≤ maxSize) :
    ∀ (entries : List (K × V)) (size : Nat),
      size = (entries.map (entryBytes keySize valSize)).sum →
      ∃ ents sz,
        evictLoop keySize valSize need maxSize entries size = some (ents, sz)
        ∧ sz = (ents.map (entryBytes keySize valSize)).sum
        ∧ sz + need ≤ maxSize := by
  intro entries
  induction entries with
  | nil =>
    intro size hwf
    simp only [List.map_nil, List.sum_nil] at hwf
    subst hwf
    exact ⟨[], 0, by simp [evictLoop, hneed], by simp, by omega⟩
  | cons e rest ih =>
    intro size hwf
    by_cases hc : size + need ≤ maxSize
    · exact ⟨e :: rest, size, by simp [evictLoop, hc], hwf, hc⟩
    · have hrest : size - entryBytes keySize valSize e
          = (rest.map (entryBytes keySize valSize)).sum := by
        simp only [List.map_cons, List.sum_cons] at hwf
        omega
      obtain ⟨ents, sz, heq, hwf2, hle⟩ := ih _ hrest
      exact ⟨ents, sz, by simp only [evictLoop, if_neg hc]; exact heq, hwf2, hle⟩

/-- Helper: subtracting every accounted entry size from a counter equal to
their sum leaves zero (the callback-driven accounting of clear). -/
lemma foldl_sub_sum {K V : Type} (keySize : K → Nat) (valSize : V → Nat) :
    ∀ (l : List (K × V)) (s : Nat),
      s = (l.map (entryBytes keySize valSize)).sum →
      l.foldl (fun s e => s - entryBytes keySize valSize e) s = 0 := by
  intro l
  induction l with
  | nil => intro s h; simpa using h
  | cons e rest ih =>
    intro s h
    simp only [List.map_cons, List.sum_cons] at h
    simp only [List.foldl_cons]
    exact ih _ (by omega)

/-- Claim C1 counterexample: a miss whose entry size 20 exceeds the budget
5 leaves the store untouched but does not hand the computed artifact to
the caller: getValue clears the local reference (line 175) and returns
null, contradicting the claim that the caller still receives the
computed, non-null artifact. -/
theorem oversize_returns_null_cex :
    getValue (fun _ : Nat => 10) (fun _ : Nat => 10) (fun _ : Nat => 0) 1
        { entries := [], mSize := 0, mMaxSize := 5 }
      = some (none, { entries := [], mSize := 0, mMaxSize := 5 }) := by
  decide

/-- Claim C1 as amended: for every miss whose computed entry size
key.size + artifact.size exceeds max_bytes, the entry is not admitted and
the store's entry count, contents and byte counter are unchanged, but the
caller receives null rather than the computed artifact (the local
reference is cleared before returning). -/
theorem getValue_oversize_not_admitted {K V : Type} [DecidableEq K]
    (keySize : K → Nat) (valSize : V → Nat) (compute : K → V) (key : K)
    (c : Cache K V)
    (hmiss : c.entries.find? (fun e => e.1 == key) = none)
    (hover : c.mMaxSize < keySize key + valSize (compute key)) :
    getValue keySize valSize compute key c = some (none, c) := by
  simp only [getValue, hmiss]
  rw [if_neg (by omega)]

/-- Witness for the amended claim C1 at a concrete empty cache with budget
5 and an entry of accounted size 20. -/
theorem getValue_oversize_not_admitted_witness :
    (({ entries := [], mSize := 0, mMaxSize := 5 } : Cache Nat Nat).entries.find?
        (fun e => e.1 == 1) = none)
  ∧ (({ entries := [], mSize := 0, mMaxSize := 5 } : Cache Nat Nat).mMaxSize
        < (fun _ : Nat => 10) 1 + (fun _ : Nat => 10) ((fun _ : Nat => 0) 1))
  ∧ getValue (fun _ : Nat => 10) (fun _ : Nat => 10) (fun _ : Nat => 0) 1
        { entries := [], mSize := 0, mMaxSize := 5 }
      = some (none, { entries := [], mSize := 0, mMaxSize := 5 }) :=
  ⟨by decide, by decide,
    getValue_oversize_not_admitted (fun _ : Nat => 10) (fun _ : Nat => 10)
      (fun _ : Nat => 0) 1 { entries := [], mSize := 0, mMaxSize := 5 }
      (by decide) (by decide)⟩

/-- Claim C4: starting from a state where the byte counter equals the sum
of the accounted entry sizes and respects the budget, every public cache
operation terminates and preserves both facts: getValue keeps the counter
equal to the sum of the present entry sizes and within the budget (the
oversized-miss case holds no entry), setMaxSize n evicts oldest entries,
each decrementing the counter by its accounted size through the removal
callback, until the counter is at most n, and clear empties the store,
firing the callback for every entry, leaving a zero counter. -/
theorem cache_size_invariant {K V : Type} [DecidableEq K]
    (keySize : K → Nat) (valSize : V → Nat) (compute : K → V)
    (c : Cache K V) (hwf : CacheWF keySize valSize c)
    (hle : c.mSize ≤ c.mMaxSize) :
    (∀ key, ∃ r c2, getValue keySize valSize compute key c = some (r, c2)
        ∧ CacheWF keySize valSize c2 ∧ c2.mSize ≤ c2.mMaxSize)
  ∧ (∀ n, ∃ c2, setMaxSize keySize valSize n c = some c2
        ∧ CacheWF keySize valSize c2 ∧ c2.mSize ≤ n ∧ c2.mMaxSize = n)
  ∧ (CacheWF keySize valSize (clearCache keySize valSize c)
      ∧ (clearCache keySize valSize c).mSize
          ≤ (clearCache keySize valSize c).mMaxSize) := by
  refine ⟨?_, ?_, ?_, ?_⟩
  · intro key
    cases hfind : c.entries.find? (fun e => e.1 == key) with
    | some e =>
      exact ⟨some e.2, c, by simp [getValue, hfind], hwf, hle⟩
    | none =>
      by_cases hsz : keySize key + valSize (compute key) ≤ c.mMaxSize
      · obtain ⟨ents, sz, heq, hwf2, hfits⟩ :=
          evictLoop_spec keySize valSize (keySize key + valSize (compute key))
            c.mMaxSize hsz c.entries c.mSize hwf
        refine ⟨some (compute key),
          { entries := ents ++ [(key, compute key)]
          , mSize := sz + (keySize key + valSize (compute key))
          , mMaxSize := c.mMaxSize }, ?_, ?_, ?_⟩
        · simp only [getValue, hfind, if_pos hsz, heq]
        · simp only [CacheWF, List.map_append, List.sum_append, List.map_cons,
            List.sum_cons, List.map_nil, List.sum_nil]
          simp [entryBytes, hwf2]
        · exact hfits
      · exact ⟨none, c, by simp only [getValue, hfind]; rw [if_neg hsz], hwf, hle⟩
  · intro n
    obtain ⟨ents, sz, heq, hwf2, hfits⟩ :=
      evictLoop_spec keySize valSize 0 n (Nat.zero_le n) c.entries c.mSize hwf
    exact ⟨{ entries := ents, mSize := sz, mMaxSize := n },
      by simp only [setMaxSize, heq], hwf2, by simpa using hfits, rfl⟩
  · simp only [CacheWF, clearCache, List.map_nil, List.sum_nil]
    exact foldl_sub_sum keySize valSize c.entries c.mSize hwf
  · have h0 : (clearCache keySize valSize c).mSize = 0 := by
      simp only [clearCache]
      exact foldl_sub_sum keySize valSize c.entries c.mSize hwf
    omega

/-- Witness for claim C4 at a concrete one-entry cache with identity size
functions, counter 3 and budget 10. -/
theorem cache_size_invariant_witness :
    (CacheWF (fun k : Nat => k) (fun v : Nat => v)
        { entries := [(1, 2)], mSize := 3, mMaxSize := 10 }
      ∧ ({ entries := [(1, 2)], mSize := 3, mMaxSize := 10 } : Cache Nat Nat).mSize
          ≤ ({ entries := [(1, 2)], mSize := 3, mMaxSize := 10 } : Cache Nat Nat).mMaxSize)
  ∧ ((∀ key, ∃ r c2,
        getValue (fun k : Nat => k) (fun v : Nat => v) (fun k => k + 1) key
            { entries := [(1, 2)], mSize := 3, mMaxSize := 10 } = some (r, c2)
        ∧ CacheWF (fun k : Nat => k) (fun v : Nat => v) c2
        ∧ c2.mSize ≤ c2.mMaxSize)
    ∧ (∀ n, ∃ c2, setMaxSize (fun k : Nat => k) (fun v : Nat => v) n
            { entries := [(1, 2)], mSize := 3, mMaxSize := 10 } = some c2
        ∧ CacheWF (fun k : Nat => k) (fun v : Nat => v) c2
        ∧ c2.mSize ≤ n ∧ c2.mMaxSize = n)
    ∧ (CacheWF (fun k : Nat => k) (fun v : Nat => v)
          (clearCache (fun k : Nat => k) (fun v : Nat => v)
            { entries := [(1, 2)], mSize := 3, mMaxSize := 10 })
        ∧ (clearCache (fun k : Nat => k) (fun v : Nat => v)
            { entries := [(1, 2)], mSize := 3, mMaxSize := 10 }).mSize
          ≤ (clearCache (fun k : Nat => k) (fun v : Nat => v)
            { entries := [(1, 2)], mSize := 3, mMaxSize := 10 }).mMaxSize)) :=
  ⟨⟨rfl, by decide⟩,
    cache_size_invariant (fun k : Nat => k) (fun v : Nat => v) (fun k => k + 1)
      { entries := [(1, 2)], mSize := 3, mMaxSize := 10 } rfl (by decide)⟩
